import Mathlib

/-!
Verification of the engineio-parser and engineio-server crates of
`socketio-rs`.  The packet/payload codec (`src/engineio-parser/src/lib.rs`),
the transport validators (`src/engineio-server/src/transport.rs`) and the
engine's `run` dispatch (`src/engineio-server/src/engine.rs`) are shallowly
embedded below.  Rust `&str` values become `List Char`, `Vec<u8>` becomes
`List Nat` (each element a byte value `< 256`), `Result` becomes `Except`.
-/

deriving instance DecidableEq for Except

namespace Eio

set_option autoImplicit false

/-- Error type of the packet codec, mirroring `PacketParsingError` in
`src/engineio-parser/src/lib.rs`. -/
inductive PacketParsingError
  | InvalidChar
  | InvalidPacketLen
  | EmptyString
  | InvalidBinaryMessage
  | InvalidPing
  | InvalidPong
  deriving DecidableEq, Repr

/-- Packet types, mirroring `PacketType`. -/
inductive PacketType
  | Open
  | Close
  | Ping
  | Pong
  | Message
  | Upgrade
  | Noop
  deriving DecidableEq, Repr

/-- Packet data, mirroring `PacketData`: UTF-8 text or binary bytes. -/
inductive PacketData
  | String (s : List Char)
  | Binary (b : List Nat)
  deriving DecidableEq, Repr

/-- A packet, mirroring `struct Packet`. -/
structure Packet where
  packet_type : PacketType
  data : Option PacketData
  deriving DecidableEq, Repr

/-- The reserved payload separator `PACKET_SEPARATOR`, ASCII 0x1E. -/
def SEP : Char := Char.ofNat 30

/-- The literal `PACKET_PROBE` token `"probe"`. -/
def PACKET_PROBE : List Char := ['p', 'r', 'o', 'b', 'e']

/-- The RFC 4648 standard base64 alphabet used by the external `base64`
crate that the parser calls for `b`-prefixed binary messages. -/
def b64Alphabet : List Char :=
  ['A', 'B', 'C', 'D', 'E', 'F', 'G', 'H', 'I', 'J', 'K', 'L', 'M',
   'N', 'O', 'P', 'Q', 'R', 'S', 'T', 'U', 'V', 'W', 'X', 'Y', 'Z',
   'a', 'b', 'c', 'd', 'e', 'f', 'g', 'h', 'i', 'j', 'k', 'l', 'm',
   'n', 'o', 'p', 'q', 'r', 's', 't', 'u', 'v', 'w', 'x', 'y', 'z',
   '0', '1', '2', '3', '4', '5', '6', '7', '8', '9', '+', '/']

/-- Sextet value to base64 character. -/
def encChar (i : Nat) : Char := b64Alphabet.getD i 'A'

/-- Base64 character to sextet value; `none` for characters outside the
alphabet (including the padding character). -/
def decChar (c : Char) : Option Nat :=
  if b64Alphabet.indexOf c < b64Alphabet.length then some (b64Alphabet.indexOf c)
  else none

/-- Modelled from the spec: base64 encoding of a byte sequence with `=`
padding (RFC 4648 standard alphabet).  The source repository does not
contain the base64 implementation — it calls the external `base64` crate —
and declares no encoder of its own; §4.1 of the spec fixes the format. -/
def b64enc : List Nat → List Char
  | [] => []
  | [a] => [encChar (a / 4), encChar (a % 4 * 16), '=', '=']
  | [a, b] => [encChar (a / 4), encChar (a % 4 * 16 + b / 16), encChar (b % 16 * 4), '=']
  | a :: b :: c :: rest =>
    encChar (a / 4) :: encChar (a % 4 * 16 + b / 16) ::
      encChar (b % 16 * 4 + c / 64) :: encChar (c % 64) :: b64enc rest

/-- Base64 decoding, modelling `base64::decode` of the external crate:
input must be a sequence of 4-character groups, `=` padding only in the
final group, non-canonical trailing bits rejected. -/
def b64dec : List Char → Option (List Nat)
  | [] => some []
  | c1 :: c2 :: c3 :: c4 :: rest =>
    if c3 = '=' then
      if c4 = '=' ∧ rest = [] then
        (decChar c1).bind fun a =>
        (decChar c2).bind fun b =>
        if b % 16 = 0 then some [a * 4 + b / 16] else none
      else none
    else if c4 = '=' then
      if rest = [] then
        (decChar c1).bind fun a =>
        (decChar c2).bind fun b =>
        (decChar c3).bind fun c =>
        if c % 4 = 0 then some [a * 4 + b / 16, b % 16 * 16 + c / 4] else none
      else none
    else
      (decChar c1).bind fun a =>
      (decChar c2).bind fun b =>
      (decChar c3).bind fun c =>
      (decChar c4).bind fun d =>
      (b64dec rest).bind fun tl =>
      some ((a * 4 + b / 16) :: (b % 16 * 16 + c / 4) :: (c % 4 * 64 + d) :: tl)
  | _ => none

/-- Packet decoding, mirroring `impl TryFrom<&str> for Packet`
(`src/engineio-parser/src/lib.rs`, lines 51-119). -/
def Packet.try_from : List Char → Except PacketParsingError Packet
  | [] => .error .EmptyString
  | '0' :: _ => .ok ⟨.Open, none⟩
  | '1' :: _ => .ok ⟨.Close, none⟩
  | '2' :: rest =>
    if rest.length > 0 ∧ rest ≠ PACKET_PROBE then .error .InvalidPing
    else .ok ⟨.Ping, some (.String rest)⟩
  | '3' :: rest =>
    if rest.length > 0 ∧ rest ≠ PACKET_PROBE then .error .InvalidPong
    else .ok ⟨.Pong, some (.String rest)⟩
  | '4' :: rest => .ok ⟨.Message, some (.String rest)⟩
  | 'b' :: rest =>
    match b64dec rest with
    | some bs => .ok ⟨.Message, some (.Binary bs)⟩
    | none => .error .InvalidBinaryMessage
  | '5' :: _ => .ok ⟨.Upgrade, none⟩
  | '6' :: _ => .ok ⟨.Noop, none⟩
  | _ :: _ => .error .InvalidChar

/-- Splitting on the separator character, mirroring Rust's
`value.split(PACKET_SEPARATOR)`: `n` separators yield `n + 1` segments,
the empty string yields one empty segment. -/
def splitSep : List Char → List (List Char)
  | [] => [[]]
  | c :: cs =>
    if c = SEP then [] :: splitSep cs
    else
      match splitSep cs with
      | [] => [[c]]
      | seg :: rest => (c :: seg) :: rest

/-- Decoding every segment in order, stopping at the first failure: the
body of the `for` loop in `impl TryFrom<&str> for Payload`. -/
def decodeSegs : List (List Char) → Except PacketParsingError (List Packet)
  | [] => .ok []
  | seg :: rest =>
    match Packet.try_from seg with
    | .ok p =>
      match decodeSegs rest with
      | .ok ps => .ok (p :: ps)
      | .error e => .error e
    | .error e => .error e

/-- A payload, mirroring `struct Payload`. -/
structure Payload where
  packets : List Packet
  deriving DecidableEq, Repr

/-- Mirrors `Payload::len`. -/
def Payload.len (pl : Payload) : Nat := pl.packets.length

/-- Payload decoding, mirroring `impl TryFrom<&str> for Payload`
(`src/engineio-parser/src/lib.rs`, lines 133-145). -/
def Payload.try_from (s : List Char) : Except PacketParsingError Payload :=
  match decodeSegs (splitSep s) with
  | .ok ps => .ok ⟨ps⟩
  | .error e => .error e

/-- Error type of the transport validators, mirroring
`TransportParsingError` in `src/engineio-server/src/transport.rs`. -/
inductive TransportParsingError
  | PacketParsingErr (e : PacketParsingError)
  | InvalidPayloadForWebsocket (n : Nat)
  | InvalidPongPacket
  | InvalidPingPacket
  deriving DecidableEq, Repr

/-- Mirrors `impl Transport for WebsocketTransport::parse_payload`
(`src/engineio-server/src/transport.rs`, lines 34-47). -/
def WebsocketTransport.parse_payload (s : List Char) :
    Except TransportParsingError Payload :=
  match Payload.try_from s with
  | .ok pl =>
    if pl.len > 1 then .error (.InvalidPayloadForWebsocket pl.len)
    else .ok pl
  | .error e => .error (.PacketParsingErr e)

/-- The `for` loop over packets in `PollingTransport::parse_payload`:
first Pong-with-data yields `InvalidPongPacket`, first Ping-with-data
yields `InvalidPingPacket`. -/
def pollingCheck : List Packet → Except TransportParsingError Unit
  | [] => .ok ()
  | p :: rest =>
    match p.packet_type with
    | .Pong =>
      match p.data with
      | some _ => .error .InvalidPongPacket
      | none => pollingCheck rest
    | .Ping =>
      match p.data with
      | some _ => .error .InvalidPingPacket
      | none => pollingCheck rest
    | _ => pollingCheck rest

/-- Mirrors `impl Transport for PollingTransport::parse_payload`
(`src/engineio-server/src/transport.rs`, lines 54-78). -/
def PollingTransport.parse_payload (s : List Char) :
    Except TransportParsingError Payload :=
  match Payload.try_from s with
  | .ok pl =>
    match pollingCheck pl.packets with
    | .ok _ => .ok pl
    | .error e => .error e
  | .error e => .error (.PacketParsingErr e)

/-- Transport kinds, mirroring `TransportType` (the carried transport
structs are zero-sized). -/
inductive TransportType
  | Websocket
  | Polling
  deriving DecidableEq, Repr

/-- Engine errors, mirroring `EngineError` in
`src/engineio-server/src/engine.rs` (the wrapped tungstenite error of
`ConnWebsocketErr` is external and modelled as opaque). -/
inductive EngineError
  | MissingSIDWebsocket
  | ConnWebsocketErr
  | BlankSID
  deriving DecidableEq, Repr

/-- The engine's per-request state, mirroring `struct Engine`: its
transport and optional sid (the responder is external). -/
structure Engine where
  transport : TransportType
  sid : Option (List Char)
  deriving DecidableEq, Repr

/-- Mirrors `Engine::run` (`src/engineio-server/src/engine.rs`, lines
53-63).  The `(Websocket, Some(sid))` arm calls `self.responder()`, an
external capability modelled by the `respond` argument; since `run` takes
`&self`, the engine state is returned unchanged in every arm. -/
def Engine.run (e : Engine) (respond : Except EngineError Unit) :
    Except EngineError Unit × Engine :=
  match e.transport, e.sid with
  | .Websocket, none => (.error .MissingSIDWebsocket, e)
  | .Websocket, some _ => (respond, e)
  | .Polling, none => (.ok (), e)
  | .Polling, some _ => (.ok (), e)

/-- Modelled from the spec: packet encoding.  The source repository
declares no `encode`; §4.1 fixes it as "type character followed by the
applicable body, with binary messages always using the `b` prefix plus
base64". -/
def Packet.encode : Packet → List Char
  | ⟨.Open, _⟩ => ['0']
  | ⟨.Close, _⟩ => ['1']
  | ⟨.Ping, some (.String m)⟩ => '2' :: m
  | ⟨.Ping, _⟩ => ['2']
  | ⟨.Pong, some (.String m)⟩ => '3' :: m
  | ⟨.Pong, _⟩ => ['3']
  | ⟨.Message, some (.String m)⟩ => '4' :: m
  | ⟨.Message, some (.Binary bs)⟩ => 'b' :: b64enc bs
  | ⟨.Message, none⟩ => ['4']
  | ⟨.Upgrade, _⟩ => ['5']
  | ⟨.Noop, _⟩ => ['6']

/-- Joining segments with the separator: inverse of `splitSep`. -/
def joinSep : List (List Char) → List Char
  | [] => []
  | [x] => x
  | x :: xs => x ++ SEP :: joinSep xs

/-- Modelled from the spec: payload encoding, §4.2 — "the join of each
packet's encoding with the separator, preserving order". -/
def Payload.encode (pl : Payload) : List Char :=
  joinSep (pl.packets.map Packet.encode)

/-- The per-packet rule the Polling validator enforces, stated as in the
spec: a Pong must not carry data, a Ping must not carry data. -/
def pollingPacketOk (p : Packet) : Prop :=
  ¬(p.packet_type = .Pong ∧ p.data.isSome = true) ∧
    ¬(p.packet_type = .Ping ∧ p.data.isSome = true)

instance (p : Packet) : Decidable (pollingPacketOk p) := by
  unfold pollingPacketOk
  infer_instance

/-! ## Base64 lemmas -/

theorem b64Alphabet_length : b64Alphabet.length = 64 := rfl

theorem decChar_encChar : ∀ i : Nat, i < 64 → decChar (encChar i) = some i := by decide

theorem encChar_ne_pad : ∀ i : Nat, i < 64 → encChar i ≠ '=' := by decide

theorem encChar_ne_sep : ∀ i : Nat, i < 64 → encChar i ≠ SEP := by decide

theorem decChar_lt {c : Char} {i : Nat} (h : decChar c = some i) : i < 64 := by
  unfold decChar at h
  split at h
  · rename_i hlt
    rw [b64Alphabet_length] at hlt
    cases h
    exact hlt
  · cases h

theorem b64dec_lt : ∀ (s : List Char) (bs : List Nat),
    b64dec s = some bs → ∀ x ∈ bs, x < 256
  | [], bs, h => by
    simp only [b64dec] at h
    cases h
    intro x hx
    cases hx
  | [_], bs, h => by rw [show b64dec [_] = none from rfl] at h; cases h
  | [_, _], bs, h => by rw [show b64dec [_, _] = none from rfl] at h; cases h
  | [_, _, _], bs, h => by rw [show b64dec [_, _, _] = none from rfl] at h; cases h
  | c1 :: c2 :: c3 :: c4 :: rest, bs, h => by
    have ih := b64dec_lt rest
    unfold b64dec at h
    split at h
    · split at h
      · simp only [Option.bind_eq_some] at h
        obtain ⟨a, ha, b, hb, h⟩ := h
        split at h
        · cases h
          intro x hx
          have hal := decChar_lt ha
          have hbl := decChar_lt hb
          simp only [List.mem_singleton] at hx
          omega
        · cases h
      · cases h
    · split at h
      · split at h
        · simp only [Option.bind_eq_some] at h
          obtain ⟨a, ha, b, hb, c, hc, h⟩ := h
          split at h
          · cases h
            intro x hx
            have hal := decChar_lt ha
            have hbl := decChar_lt hb
            have hcl := decChar_lt hc
            simp only [List.mem_cons, List.not_mem_nil, or_false] at hx
            rcases hx with hx | hx <;> omega
          · cases h
        · cases h
      · simp only [Option.bind_eq_some] at h
        obtain ⟨a, ha, b, hb, c, hc, d, hd, tl, htl, h⟩ := h
        cases h
        intro x hx
        have hal := decChar_lt ha
        have hbl := decChar_lt hb
        have hcl := decChar_lt hc
        have hdl := decChar_lt hd
        have htlb := ih tl htl
        simp only [List.mem_cons] at hx
        rcases hx with hx | hx | hx | hx
        · omega
        · omega
        · omega
        · exact htlb x hx

theorem b64_rt : ∀ (bs : List Nat), (∀ x ∈ bs, x < 256) → b64dec (b64enc bs) = some bs
  | [], _ => rfl
  | [a], h => by
    have ha : a < 256 := h a (by simp)
    have e1 := decChar_encChar (a / 4) (by omega)
    have e2 := decChar_encChar (a % 4 * 16) (by omega)
    show b64dec [encChar (a / 4), encChar (a % 4 * 16), '=', '='] = some [a]
    unfold b64dec
    rw [if_pos rfl, if_pos (⟨rfl, rfl⟩ : ('=' : Char) = '=' ∧ ([] : List Char) = []), e1, e2]
    simp only [Option.some_bind]
    rw [if_pos (by omega)]
    simp only [Option.some.injEq, List.cons.injEq, and_true]
    omega
  | [a, b], h => by
    have ha : a < 256 := h a (by simp)
    have hb : b < 256 := h b (by simp)
    have e1 := decChar_encChar (a / 4) (by omega)
    have e2 := decChar_encChar (a % 4 * 16 + b / 16) (by omega)
    have e3 := decChar_encChar (b % 16 * 4) (by omega)
    show b64dec [encChar (a / 4), encChar (a % 4 * 16 + b / 16), encChar (b % 16 * 4), '='] =
      some [a, b]
    unfold b64dec
    rw [if_neg (encChar_ne_pad _ (by omega)), if_pos rfl, if_pos rfl, e1, e2, e3]
    simp only [Option.some_bind]
    rw [if_pos (by omega)]
    simp only [Option.some.injEq, List.cons.injEq, and_true]
    constructor <;> omega
  | a :: b :: c :: rest, h => by
    have ha : a < 256 := h a (by simp)
    have hb : b < 256 := h b (by simp)
    have hc : c < 256 := h c (by simp)
    have ih := b64_rt rest (fun x hx => h x (by simp [hx]))
    have e1 := decChar_encChar (a / 4) (by omega)
    have e2 := decChar_encChar (a % 4 * 16 + b / 16) (by omega)
    have e3 := decChar_encChar (b % 16 * 4 + c / 64) (by omega)
    have e4 := decChar_encChar (c % 64) (by omega)
    show b64dec (encChar (a / 4) :: encChar (a % 4 * 16 + b / 16) ::
      encChar (b % 16 * 4 + c / 64) :: encChar (c % 64) :: b64enc rest) =
      some (a :: b :: c :: rest)
    unfold b64dec
    rw [if_neg (encChar_ne_pad _ (by omega)), if_neg (encChar_ne_pad _ (by omega)),
      e1, e2, e3, e4]
    simp only [Option.some_bind]
    rw [ih]
    simp only [Option.some_bind, Option.some.injEq, List.cons.injEq]
    refine ⟨by omega, by omega, by omega, trivial⟩

theorem b64enc_no_sep : ∀ (bs : List Nat), (∀ x ∈ bs, x < 256) → SEP ∉ b64enc bs
  | [], _ => by simp [b64enc]
  | [a], h => by
    have ha : a < 256 := h a (by simp)
    simp only [b64enc, List.mem_cons, List.not_mem_nil, or_false]
    intro hmem
    rcases hmem with hx | hx | hx | hx
    · exact encChar_ne_sep _ (by omega) hx.symm
    · exact encChar_ne_sep _ (by omega) hx.symm
    · exact (by decide : SEP ≠ '=') hx
    · exact (by decide : SEP ≠ '=') hx
  | [a, b], h => by
    have ha : a < 256 := h a (by simp)
    have hb : b < 256 := h b (by simp)
    simp only [b64enc, List.mem_cons, List.not_mem_nil, or_false]
    intro hmem
    rcases hmem with hx | hx | hx | hx
    · exact encChar_ne_sep _ (by omega) hx.symm
    · exact encChar_ne_sep _ (by omega) hx.symm
    · exact encChar_ne_sep _ (by omega) hx.symm
    · exact (by decide : SEP ≠ '=') hx
  | a :: b :: c :: rest, h => by
    have ha : a < 256 := h a (by simp)
    have hb : b < 256 := h b (by simp)
    have hc : c < 256 := h c (by simp)
    have ih := b64enc_no_sep rest (fun x hx => h x (by simp [hx]))
    simp only [b64enc, List.mem_cons]
    intro hmem
    rcases hmem with hx | hx | hx | hx | hx
    · exact encChar_ne_sep _ (by omega) hx.symm
    · exact encChar_ne_sep _ (by omega) hx.symm
    · exact encChar_ne_sep _ (by omega) hx.symm
    · exact encChar_ne_sep _ (by omega) hx.symm
    · exact ih hx

/-! ## Separator splitting and joining -/

theorem splitSep_ne_nil : ∀ s : List Char, splitSep s ≠ []
  | [] => by simp [splitSep]
  | c :: cs => by
    unfold splitSep
    split
    · simp
    · split <;> simp

theorem sep_not_mem_splitSep : ∀ (s seg : List Char), seg ∈ splitSep s → SEP ∉ seg
  | [], seg, hm => by
    simp only [splitSep, List.mem_singleton] at hm
    subst hm
    simp
  | c :: cs, seg, hm => by
    have ih := sep_not_mem_splitSep cs
    unfold splitSep at hm
    by_cases hc : c = SEP
    · rw [if_pos hc] at hm
      rcases List.mem_cons.mp hm with h | h
      · subst h; simp
      · exact ih _ h
    · rw [if_neg hc] at hm
      rcases hsp : splitSep cs with _ | ⟨t, rest⟩
      · exact absurd hsp (splitSep_ne_nil cs)
      · rw [hsp] at hm
        rcases List.mem_cons.mp hm with h | h
        · subst h
          intro hmem
          rcases List.mem_cons.mp hmem with h' | h'
          · exact hc h'.symm
          · exact ih t (hsp ▸ List.mem_cons_self t rest) h'
        · exact ih seg (hsp ▸ List.mem_cons_of_mem t h)

theorem splitSep_of_no_sep : ∀ (x : List Char), SEP ∉ x → splitSep x = [x]
  | [], _ => rfl
  | c :: x, h => by
    have hc : c ≠ SEP := fun hh => h (by simp [hh])
    have ih := splitSep_of_no_sep x (fun hh => h (List.mem_cons_of_mem _ hh))
    unfold splitSep
    rw [if_neg hc, ih]

theorem splitSep_append : ∀ (x t : List Char), SEP ∉ x →
    splitSep (x ++ SEP :: t) = x :: splitSep t
  | [], t, _ => by
    show splitSep (SEP :: t) = [] :: splitSep t
    conv_lhs => rw [splitSep]
    rw [if_pos rfl]
  | c :: x, t, h => by
    have hc : c ≠ SEP := fun hh => h (by simp [hh])
    have ih := splitSep_append x t (fun hh => h (List.mem_cons_of_mem _ hh))
    show splitSep (c :: (x ++ SEP :: t)) = (c :: x) :: splitSep t
    conv_lhs => rw [splitSep]
    rw [if_neg hc, ih]

theorem splitSep_joinSep : ∀ (parts : List (List Char)), parts ≠ [] →
    (∀ q ∈ parts, SEP ∉ q) → splitSep (joinSep parts) = parts
  | [], h, _ => absurd rfl h
  | [x], _, hp => by
    show splitSep (joinSep [x]) = [x]
    rw [show joinSep [x] = x from rfl]
    exact splitSep_of_no_sep x (hp x (by simp))
  | x :: y :: parts, _, hp => by
    have ih := splitSep_joinSep (y :: parts) (by simp)
      (fun q hm => hp q (List.mem_cons_of_mem _ hm))
    rw [show joinSep (x :: y :: parts) = x ++ SEP :: joinSep (y :: parts) from rfl]
    rw [splitSep_append _ _ (hp x (by simp)), ih]

/-! ## Segment decoding -/

theorem decodeSegs_length : ∀ (ss : List (List Char)) (ps : List Packet),
    decodeSegs ss = .ok ps → ps.length = ss.length
  | [], ps, h => by
    simp only [decodeSegs] at h
    cases h
    rfl
  | sg :: ss, ps, h => by
    have ih := decodeSegs_length ss
    unfold decodeSegs at h
    split at h
    · split at h
      · rename_i ps' hps'
        cases h
        simp [ih ps' hps']
      · cases h
    · cases h

theorem decodeSegs_mem : ∀ (ss : List (List Char)) (ps : List Packet),
    decodeSegs ss = .ok ps → ∀ p ∈ ps, ∃ sg ∈ ss, Packet.try_from sg = .ok p
  | [], ps, h => by
    simp only [decodeSegs] at h
    cases h
    intro p hp
    cases hp
  | sg :: ss, ps, h => by
    have ih := decodeSegs_mem ss
    unfold decodeSegs at h
    split at h
    · rename_i q hq
      split at h
      · rename_i ps' hps'
        cases h
        intro p hp
        rcases List.mem_cons.mp hp with hp | hp
        · exact ⟨sg, List.mem_cons_self _ _, hp ▸ hq⟩
        · obtain ⟨t, ht, hrel⟩ := ih ps' hps' p hp
          exact ⟨t, List.mem_cons_of_mem _ ht, hrel⟩
      · cases h
    · cases h

theorem decodeSegs_map : ∀ (ps : List Packet),
    (∀ p ∈ ps, Packet.try_from (Packet.encode p) = .ok p) →
    decodeSegs (ps.map Packet.encode) = .ok ps
  | [], _ => rfl
  | p :: ps, h => by
    have ih := decodeSegs_map ps (fun q hq => h q (List.mem_cons_of_mem _ hq))
    have hp := h p (List.mem_cons_self _ _)
    show decodeSegs (Packet.encode p :: ps.map Packet.encode) = .ok (p :: ps)
    unfold decodeSegs
    rw [hp, ih]

theorem decodeSegs_error : ∀ (pre : List (List Char)) (sg : List Char)
    (post : List (List Char)) (e : PacketParsingError),
    (∀ t ∈ pre, ∃ p, Packet.try_from t = .ok p) → Packet.try_from sg = .error e →
    decodeSegs (pre ++ sg :: post) = .error e
  | [], sg, post, e, _, hsg => by
    show decodeSegs (sg :: post) = .error e
    unfold decodeSegs
    rw [hsg]
  | t :: pre, sg, post, e, hpre, hsg => by
    obtain ⟨p, hp⟩ := hpre t (List.mem_cons_self _ _)
    have ih := decodeSegs_error pre sg post e
      (fun u hu => hpre u (List.mem_cons_of_mem _ hu)) hsg
    show decodeSegs (t :: (pre ++ sg :: post)) = .error e
    unfold decodeSegs
    rw [hp, ih]

/-! ## Packet codec lemmas -/

theorem packet_rt (s : List Char) (p : Packet) (h : Packet.try_from s = .ok p) :
    Packet.try_from (Packet.encode p) = .ok p := by
  unfold Packet.try_from at h
  split at h
  · cases h
  · injection h with h; subst h; rfl
  · injection h with h; subst h; rfl
  · rename_i rest
    split at h
    · cases h
    · rename_i hcond
      injection h with h; subst h
      show Packet.try_from ('2' :: rest) = .ok ⟨.Ping, some (.String rest)⟩
      simp only [Packet.try_from]
      rw [if_neg hcond]
  · rename_i rest
    split at h
    · cases h
    · rename_i hcond
      injection h with h; subst h
      show Packet.try_from ('3' :: rest) = .ok ⟨.Pong, some (.String rest)⟩
      simp only [Packet.try_from]
      rw [if_neg hcond]
  · injection h with h; subst h; rfl
  · rename_i rest
    split at h
    · rename_i bs heq
      injection h with h; subst h
      show Packet.try_from ('b' :: b64enc bs) = .ok ⟨.Message, some (.Binary bs)⟩
      simp only [Packet.try_from]
      rw [b64_rt bs (b64dec_lt rest bs heq)]
    · cases h
  · injection h with h; subst h; rfl
  · injection h with h; subst h; rfl
  · cases h

theorem encode_no_sep (s : List Char) (p : Packet) (h : Packet.try_from s = .ok p)
    (hs : SEP ∉ s) : SEP ∉ Packet.encode p := by
  unfold Packet.try_from at h
  split at h
  · cases h
  · injection h with h; subst h; decide
  · injection h with h; subst h; decide
  · rename_i rest
    split at h
    · cases h
    · injection h with h; subst h
      intro hmem
      rcases List.mem_cons.mp hmem with h' | h'
      · exact (by decide : SEP ≠ '2') h'
      · exact hs (List.mem_cons_of_mem _ h')
  · rename_i rest
    split at h
    · cases h
    · injection h with h; subst h
      intro hmem
      rcases List.mem_cons.mp hmem with h' | h'
      · exact (by decide : SEP ≠ '3') h'
      · exact hs (List.mem_cons_of_mem _ h')
  · injection h with h; subst h
    intro hmem
    rcases List.mem_cons.mp hmem with h' | h'
    · exact (by decide : SEP ≠ '4') h'
    · exact hs (List.mem_cons_of_mem _ h')
  · rename_i rest
    split at h
    · rename_i bs heq
      injection h with h; subst h
      intro hmem
      rcases List.mem_cons.mp hmem with h' | h'
      · exact (by decide : SEP ≠ 'b') h'
      · exact b64enc_no_sep bs (b64dec_lt rest bs heq) h'
    · cases h
  · injection h with h; subst h; decide
  · injection h with h; subst h; decide
  · cases h

theorem ping_pong_some (s : List Char) (p : Packet) (h : Packet.try_from s = .ok p)
    (ht : p.packet_type = .Ping ∨ p.packet_type = .Pong) :
    ∃ m, p.data = some (.String m) := by
  unfold Packet.try_from at h
  split at h
  · cases h
  · injection h with h; subst h; rcases ht with ht | ht <;> exact absurd ht (by decide)
  · injection h with h; subst h; rcases ht with ht | ht <;> exact absurd ht (by decide)
  · rename_i rest
    split at h
    · cases h
    · injection h with h; subst h
      exact ⟨rest, rfl⟩
  · rename_i rest
    split at h
    · cases h
    · injection h with h; subst h
      exact ⟨rest, rfl⟩
  · injection h with h; subst h; rcases ht with ht | ht <;> simp at ht
  · rename_i rest
    split at h
    · rename_i bs heq
      injection h with h; subst h
      rcases ht with ht | ht <;> simp at ht
    · cases h
  · injection h with h; subst h; rcases ht with ht | ht <;> exact absurd ht (by decide)
  · injection h with h; subst h; rcases ht with ht | ht <;> exact absurd ht (by decide)
  · cases h

/-! ## Payload codec lemmas -/

theorem payload_try_from_ok (s : List Char) (pl : Payload)
    (h : Payload.try_from s = .ok pl) : decodeSegs (splitSep s) = .ok pl.packets := by
  unfold Payload.try_from at h
  split at h
  · rename_i ps hps
    injection h with h
    subst h
    exact hps
  · cases h

theorem payload_mem (s : List Char) (pl : Payload) (h : Payload.try_from s = .ok pl) :
    ∀ p ∈ pl.packets, ∃ t, Packet.try_from t = .ok p ∧ SEP ∉ t := by
  have hsegs := payload_try_from_ok s pl h
  intro p hp
  obtain ⟨sg, hsg, hrel⟩ := decodeSegs_mem _ _ hsegs p hp
  exact ⟨sg, hrel, sep_not_mem_splitSep s sg hsg⟩

theorem payload_rt (s : List Char) (pl : Payload) (h : Payload.try_from s = .ok pl) :
    Payload.try_from (Payload.encode pl) = .ok pl := by
  have hsegs := payload_try_from_ok s pl h
  have hmem := payload_mem s pl h
  have hlen : pl.packets.length = (splitSep s).length := decodeSegs_length _ _ hsegs
  have hne : pl.packets ≠ [] := by
    intro hnil
    have : (splitSep s).length = 0 := by rw [← hlen, hnil]; rfl
    exact splitSep_ne_nil s (List.eq_nil_of_length_eq_zero this)
  have hjoin : splitSep (joinSep (pl.packets.map Packet.encode)) =
      pl.packets.map Packet.encode := by
    apply splitSep_joinSep
    · simp [hne]
    · intro q hq
      obtain ⟨p, hp, hpq⟩ := List.mem_map.mp hq
      obtain ⟨t, hrel, hts⟩ := hmem p hp
      exact hpq ▸ encode_no_sep t p hrel hts
  have hdec : decodeSegs (pl.packets.map Packet.encode) = .ok pl.packets := by
    apply decodeSegs_map
    intro p hp
    obtain ⟨t, hrel, _⟩ := hmem p hp
    exact packet_rt t p hrel
  show Payload.try_from (joinSep (pl.packets.map Packet.encode)) = .ok pl
  unfold Payload.try_from
  rw [hjoin, hdec]

/-! ## Transport validator lemmas -/

theorem pollingCheck_ok_iff : ∀ l : List Packet,
    pollingCheck l = .ok () ↔ ∀ p ∈ l, pollingPacketOk p
  | [] => by simp [pollingCheck]
  | ⟨pt, pd⟩ :: l => by
    have ih := pollingCheck_ok_iff l
    cases pt <;> cases pd <;> simp [pollingCheck, pollingPacketOk, ih]

theorem pollingCheck_first_ping : ∀ (pre : List Packet) (p : Packet) (post : List Packet),
    (∀ q ∈ pre, pollingPacketOk q) → p.packet_type = .Ping → p.data.isSome = true →
    pollingCheck (pre ++ p :: post) = .error .InvalidPingPacket
  | [], ⟨pt, pd⟩, post, _, hpt, hpd => by
    cases pd with
    | none => simp at hpd
    | some d =>
      simp only at hpt
      subst hpt
      rfl
  | q :: pre, p, post, hpre, hpt, hpd => by
    have hq := hpre q (List.mem_cons_self _ _)
    have ih := pollingCheck_first_ping pre p post
      (fun u hu => hpre u (List.mem_cons_of_mem _ hu)) hpt hpd
    obtain ⟨qt, qd⟩ := q
    cases qt <;> cases qd <;>
      simp_all [pollingCheck, pollingPacketOk]

theorem polling_parse_ok_iff (s : List Char) (pl : Payload) :
    PollingTransport.parse_payload s = .ok pl ↔
      Payload.try_from s = .ok pl ∧ pollingCheck pl.packets = .ok () := by
  unfold PollingTransport.parse_payload
  constructor
  · intro h
    split at h
    · rename_i pl' hpl'
      split at h
      · rename_i u hu
        injection h with h
        subst h
        cases u
        exact ⟨hpl', hu⟩
      · cases h
    · cases h
  · rintro ⟨h1, h2⟩
    rw [h1]
    show (match pollingCheck pl.packets with
      | .ok _ => (Except.ok pl : Except TransportParsingError Payload)
      | .error e => .error e) = .ok pl
    rw [h2]

theorem polling_parse_error_check (s : List Char) (pl : Payload)
    (e : TransportParsingError) (h1 : Payload.try_from s = .ok pl)
    (h2 : pollingCheck pl.packets = .error e) :
    PollingTransport.parse_payload s = .error e := by
  unfold PollingTransport.parse_payload
  rw [h1]
  show (match pollingCheck pl.packets with
    | .ok _ => (Except.ok pl : Except TransportParsingError Payload)
    | .error e => .error e) = .error e
  rw [h2]

theorem ws_parse_eq (s : List Char) (pl : Payload) (h : Payload.try_from s = .ok pl) :
    WebsocketTransport.parse_payload s =
      if pl.len > 1 then .error (.InvalidPayloadForWebsocket pl.len) else .ok pl := by
  unfold WebsocketTransport.parse_payload
  rw [h]

theorem ws_parse_ok (s : List Char) (pl : Payload)
    (h : WebsocketTransport.parse_payload s = .ok pl) : Payload.try_from s = .ok pl := by
  unfold WebsocketTransport.parse_payload at h
  split at h
  · rename_i pl' hpl'
    split at h
    · cases h
    · injection h with h
      subst h
      exact hpl'
  · cases h

/-! ## Claims -/

/-- C1: the Polling validator does reject a Pong that carries data
(`"3probe"` → `InvalidPongPacket`), but contrary to the claim the bare
Pong wire input `"3"` is NOT accepted: the decoder wraps the empty
remainder as `Some("")`, so the validator's `Some`-check also fires on a
bare Pong and rejects it with `InvalidPongPacket`. -/
theorem eio_C1 :
    PollingTransport.parse_payload ('3' :: PACKET_PROBE) = .error .InvalidPongPacket ∧
    Payload.try_from ['3'] = .ok ⟨[⟨.Pong, some (.String [])⟩]⟩ ∧
    PollingTransport.parse_payload ['3'] = .error .InvalidPongPacket :=
  ⟨rfl, rfl, rfl⟩

/-- C2 counterexample: the claim says a client Ping fails validation on the
Persistent (Websocket) transport as well; but the Websocket validator
accepts the wire input `"2probe"`, whose decoded payload contains a Ping. -/
theorem eio_C2_cex :
    Payload.try_from ('2' :: PACKET_PROBE) =
      .ok ⟨[⟨.Ping, some (.String PACKET_PROBE)⟩]⟩ ∧
    WebsocketTransport.parse_payload ('2' :: PACKET_PROBE) =
      .ok ⟨[⟨.Ping, some (.String PACKET_PROBE)⟩]⟩ :=
  ⟨rfl, rfl⟩

/-- C2 (amended): on the Polling transport every wire input whose decoded
payload contains a Ping packet fails validation, and the error is
`InvalidPingPacket` whenever the Ping is not preceded by another Ping or
Pong packet; the Websocket validator does not enforce this rule. -/
theorem eio_C2 :
    (∀ (s : List Char) (pl : Payload), Payload.try_from s = .ok pl →
      (∃ p ∈ pl.packets, p.packet_type = .Ping) →
      ∃ e, PollingTransport.parse_payload s = .error e) ∧
    (∀ (s : List Char) (pl : Payload) (pre : List Packet) (p : Packet)
      (post : List Packet),
      Payload.try_from s = .ok pl → pl.packets = pre ++ p :: post →
      p.packet_type = .Ping →
      (∀ q ∈ pre, q.packet_type ≠ .Ping ∧ q.packet_type ≠ .Pong) →
      PollingTransport.parse_payload s = .error .InvalidPingPacket) := by
  constructor
  · rintro s pl h ⟨p, hp, hping⟩
    obtain ⟨t, hrel, _⟩ := payload_mem s pl h p hp
    obtain ⟨m, hm⟩ := ping_pong_some t p hrel (Or.inl hping)
    have hdata : p.data.isSome = true := by rw [hm]; rfl
    have hnot : pollingCheck pl.packets ≠ .ok () := by
      intro hok
      have hall := (pollingCheck_ok_iff pl.packets).mp hok
      exact (hall p hp).2 ⟨hping, hdata⟩
    cases hc : pollingCheck pl.packets with
    | error e => exact ⟨e, polling_parse_error_check s pl e h hc⟩
    | ok u => cases u; exact absurd hc hnot
  · intro s pl pre p post h hsplit hping hpre
    have hpmem : p ∈ pl.packets := by
      rw [hsplit]
      exact List.mem_append_right _ (List.mem_cons_self _ _)
    obtain ⟨t, hrel, _⟩ := payload_mem s pl h p hpmem
    obtain ⟨m, hm⟩ := ping_pong_some t p hrel (Or.inl hping)
    have hdata : p.data.isSome = true := by rw [hm]; rfl
    have hcheck := pollingCheck_first_ping pre p post
      (fun q hq => ⟨fun hc => (hpre q hq).2 hc.1, fun hc => (hpre q hq).1 hc.1⟩)
      hping hdata
    exact polling_parse_error_check s pl _ h (by rw [hsplit]; exact hcheck)

/-- C2 witness: both parts applied to the concrete wire input `"2probe"`. -/
theorem eio_C2_witness :
    (∃ e, PollingTransport.parse_payload ('2' :: PACKET_PROBE) = .error e) ∧
    PollingTransport.parse_payload ('2' :: PACKET_PROBE) = .error .InvalidPingPacket := by
  refine ⟨eio_C2.1 ('2' :: PACKET_PROBE) ⟨[⟨.Ping, some (.String PACKET_PROBE)⟩]⟩ rfl
      ⟨⟨.Ping, some (.String PACKET_PROBE)⟩, by simp, rfl⟩,
    eio_C2.2 ('2' :: PACKET_PROBE) ⟨[⟨.Ping, some (.String PACKET_PROBE)⟩]⟩ []
      ⟨.Ping, some (.String PACKET_PROBE)⟩ [] rfl rfl rfl (by simp)⟩

/-- C3: payload decoding is atomic — if the segments before `seg` all
decode and `seg` fails with `e`, the whole payload decode returns
`error e` (no partial payload); and a concrete input with two consecutive
separators fails with `EmptyString`. -/
theorem eio_C3 :
    (∀ (s : List Char) (pre : List (List Char)) (seg : List Char)
      (post : List (List Char)) (e : PacketParsingError),
      splitSep s = pre ++ seg :: post →
      (∀ t ∈ pre, ∃ p, Packet.try_from t = .ok p) →
      Packet.try_from seg = .error e →
      Payload.try_from s = .error e) ∧
    Payload.try_from (['4', 'h', 'i'] ++ SEP :: SEP :: ['4', 'y', 'o']) =
      .error .EmptyString := by
  constructor
  · intro s pre seg post e hsplit hpre hseg
    unfold Payload.try_from
    rw [hsplit, decodeSegs_error pre seg post e hpre hseg]
  · rfl

/-- C3 witness: the general statement applied to the concrete input
`"4a" ++ SEP ++ "9"`, whose second segment fails with `InvalidChar`. -/
theorem eio_C3_witness :
    Payload.try_from (['4', 'a'] ++ SEP :: ['9']) = .error .InvalidChar :=
  eio_C3.1 (['4', 'a'] ++ SEP :: ['9']) [['4', 'a']] ['9'] [] .InvalidChar rfl
    (by
      intro t ht
      rw [List.mem_singleton] at ht
      subst ht
      exact ⟨⟨.Message, some (.String ['a'])⟩, rfl⟩)
    rfl

/-- C4: the Websocket validator rejects every successfully decoded payload
of more than one packet with `InvalidPayloadForWebsocket count` and accepts
every successfully decoded payload of at most one packet; the Polling
validator accepts a decoded payload of any length, subject only to the
per-packet Ping/Pong rules. -/
theorem eio_C4 :
    (∀ (s : List Char) (pl : Payload), Payload.try_from s = .ok pl → 1 < pl.len →
      WebsocketTransport.parse_payload s = .error (.InvalidPayloadForWebsocket pl.len)) ∧
    (∀ (s : List Char) (pl : Payload), Payload.try_from s = .ok pl → pl.len ≤ 1 →
      WebsocketTransport.parse_payload s = .ok pl) ∧
    (∀ (s : List Char) (pl : Payload),
      PollingTransport.parse_payload s = .ok pl ↔
        Payload.try_from s = .ok pl ∧ ∀ p ∈ pl.packets, pollingPacketOk p) := by
  refine ⟨fun s pl h h2 => ?_, fun s pl h h2 => ?_, fun s pl => ?_⟩
  · rw [ws_parse_eq s pl h, if_pos h2]
  · rw [ws_parse_eq s pl h, if_neg (by omega)]
  · exact (polling_parse_ok_iff s pl).trans
      (and_congr_right fun _ => pollingCheck_ok_iff pl.packets)

/-- C4 witness: a two-packet payload is rejected by the Websocket variant
with `InvalidPayloadForWebsocket 2`, a one-packet payload is accepted, and
the same two-packet payload passes the Polling variant. -/
theorem eio_C4_witness :
    WebsocketTransport.parse_payload (['4', 'a'] ++ SEP :: ['4', 'b']) =
      .error (.InvalidPayloadForWebsocket 2) ∧
    WebsocketTransport.parse_payload ['4', 'a'] =
      .ok ⟨[⟨.Message, some (.String ['a'])⟩]⟩ ∧
    PollingTransport.parse_payload (['4', 'a'] ++ SEP :: ['4', 'b']) =
      .ok ⟨[⟨.Message, some (.String ['a'])⟩, ⟨.Message, some (.String ['b'])⟩]⟩ := by
  refine ⟨eio_C4.1 (['4', 'a'] ++ SEP :: ['4', 'b'])
      ⟨[⟨.Message, some (.String ['a'])⟩, ⟨.Message, some (.String ['b'])⟩]⟩ rfl
      (by decide),
    eio_C4.2.1 ['4', 'a'] ⟨[⟨.Message, some (.String ['a'])⟩]⟩ rfl (by decide),
    (eio_C4.2.2 (['4', 'a'] ++ SEP :: ['4', 'b'])
      ⟨[⟨.Message, some (.String ['a'])⟩, ⟨.Message, some (.String ['b'])⟩]⟩).mpr
      ⟨rfl, by decide⟩⟩

/-- C5: for packet types `2` (Ping) and `3` (Pong), an empty remainder or
the literal `probe` decodes successfully, and any other non-empty
remainder fails with `InvalidPing` / `InvalidPong`; in particular
`"2probe"` decodes to a Ping with text `probe` and `"2xyz"` fails with
`InvalidPing`. -/
theorem eio_C5 :
    (∀ rest : List Char, (rest = [] ∨ rest = PACKET_PROBE) →
      Packet.try_from ('2' :: rest) = .ok ⟨.Ping, some (.String rest)⟩ ∧
      Packet.try_from ('3' :: rest) = .ok ⟨.Pong, some (.String rest)⟩) ∧
    (∀ rest : List Char, rest ≠ [] → rest ≠ PACKET_PROBE →
      Packet.try_from ('2' :: rest) = .error .InvalidPing ∧
      Packet.try_from ('3' :: rest) = .error .InvalidPong) ∧
    Packet.try_from ('2' :: PACKET_PROBE) = .ok ⟨.Ping, some (.String PACKET_PROBE)⟩ ∧
    Packet.try_from ['2', 'x', 'y', 'z'] = .error .InvalidPing := by
  refine ⟨fun rest hr => ?_, fun rest h1 h2 => ?_, rfl, rfl⟩
  · have hcond : ¬(rest.length > 0 ∧ rest ≠ PACKET_PROBE) := by
      rcases hr with rfl | rfl <;> simp
    exact ⟨by simp only [Packet.try_from]; rw [if_neg hcond],
      by simp only [Packet.try_from]; rw [if_neg hcond]⟩
  · have hcond : rest.length > 0 ∧ rest ≠ PACKET_PROBE :=
      ⟨List.length_pos.mpr h1, h2⟩
    exact ⟨by simp only [Packet.try_from]; rw [if_pos hcond],
      by simp only [Packet.try_from]; rw [if_pos hcond]⟩

/-- C5 witness: the success part at the empty remainder and the failure
part at the remainder `"x"`. -/
theorem eio_C5_witness :
    Packet.try_from ['2'] = .ok ⟨.Ping, some (.String [])⟩ ∧
    Packet.try_from ['3', 'x'] = .error .InvalidPong :=
  ⟨(eio_C5.1 [] (Or.inl rfl)).1, (eio_C5.2.1 ['x'] (by decide) (by decide)).2⟩

/-- C6: round-trip — every packet obtained from decoding re-decodes to
itself after encoding, and likewise every payload, order preserved
(`encode` is modelled from the spec, §4.1-4.2, as the source declares no
encoder). -/
theorem eio_C6 :
    (∀ (s : List Char) (p : Packet), Packet.try_from s = .ok p →
      Packet.try_from (Packet.encode p) = .ok p) ∧
    (∀ (s : List Char) (pl : Payload), Payload.try_from s = .ok pl →
      Payload.try_from (Payload.encode pl) = .ok pl) :=
  ⟨packet_rt, payload_rt⟩

/-- C6 witness: round-trip of a binary message packet and of a two-packet
payload. -/
theorem eio_C6_witness :
    Packet.try_from (Packet.encode ⟨.Message, some (.Binary [1, 2, 3])⟩) =
      .ok ⟨.Message, some (.Binary [1, 2, 3])⟩ ∧
    Payload.try_from (Payload.encode ⟨[⟨.Message, some (.String ['h', 'i'])⟩,
      ⟨.Pong, some (.String PACKET_PROBE)⟩]⟩) =
      .ok ⟨[⟨.Message, some (.String ['h', 'i'])⟩,
        ⟨.Pong, some (.String PACKET_PROBE)⟩]⟩ :=
  ⟨eio_C6.1 ['b', 'A', 'Q', 'I', 'D'] ⟨.Message, some (.Binary [1, 2, 3])⟩ rfl,
    eio_C6.2 (['4', 'h', 'i'] ++ SEP :: '3' :: PACKET_PROBE)
      ⟨[⟨.Message, some (.String ['h', 'i'])⟩, ⟨.Pong, some (.String PACKET_PROBE)⟩]⟩ rfl⟩

/-- C7: running the engine on the Websocket transport with no sid fails
with `MissingSIDWebsocket` and leaves the engine state unchanged; a
Polling request always succeeds (in particular it is never rejected for a
missing sid), also with unchanged state. -/
theorem eio_C7 :
    (∀ (e : Engine) (r : Except EngineError Unit),
      e.transport = .Websocket → e.sid = none →
      Engine.run e r = (.error .MissingSIDWebsocket, e)) ∧
    (∀ (e : Engine) (r : Except EngineError Unit), e.transport = .Polling →
      Engine.run e r = (.ok (), e)) := by
  constructor
  · intro e r h1 h2
    unfold Engine.run
    rw [h1, h2]
  · intro e r h1
    unfold Engine.run
    rw [h1]
    cases hs : e.sid <;> rfl

/-- C7 witness: both parts at concrete engines with no sid. -/
theorem eio_C7_witness :
    Engine.run ⟨.Websocket, none⟩ (.ok ()) =
      (.error .MissingSIDWebsocket, (⟨.Websocket, none⟩ : Engine)) ∧
    Engine.run ⟨.Polling, none⟩ (.ok ()) = (.ok (), (⟨.Polling, none⟩ : Engine)) :=
  ⟨eio_C7.1 ⟨.Websocket, none⟩ (.ok ()) rfl rfl, eio_C7.2 ⟨.Polling, none⟩ (.ok ()) rfl⟩

/-- C8: every input starting with `0`, `1`, `5` or `6` decodes to Open,
Close, Upgrade or Noop respectively with no data, whatever the trailing
characters. -/
theorem eio_C8 :
    (∀ rest : List Char, Packet.try_from ('0' :: rest) = .ok ⟨.Open, none⟩) ∧
    (∀ rest : List Char, Packet.try_from ('1' :: rest) = .ok ⟨.Close, none⟩) ∧
    (∀ rest : List Char, Packet.try_from ('5' :: rest) = .ok ⟨.Upgrade, none⟩) ∧
    (∀ rest : List Char, Packet.try_from ('6' :: rest) = .ok ⟨.Noop, none⟩) :=
  ⟨fun _ => rfl, fun _ => rfl, fun _ => rfl, fun _ => rfl⟩

/-- C9: every successfully decoded Ping or Pong packet carries data
`Some(String m)` for some text `m` — never absent data. -/
theorem eio_C9 (s : List Char) (p : Packet) (h : Packet.try_from s = .ok p)
    (ht : p.packet_type = .Ping ∨ p.packet_type = .Pong) :
    ∃ m, p.data = some (.String m) :=
  ping_pong_some s p h ht

/-- C9 witness: the bare wire input `"3"` decodes to a Pong whose data is
`Some("")`, and the theorem applies to it. -/
theorem eio_C9_witness :
    Packet.try_from ['3'] = .ok ⟨.Pong, some (.String [])⟩ ∧
    ∃ m, (Packet.mk .Pong (some (.String []))).data = some (.String m) :=
  ⟨rfl, eio_C9 ['3'] ⟨.Pong, some (.String [])⟩ rfl (Or.inr rfl)⟩

/-- C10: both transport validators are pass-throughs on success — an `Ok`
payload is exactly what `Payload::try_from` produced on the same input. -/
theorem eio_C10 :
    (∀ (s : List Char) (pl : Payload), WebsocketTransport.parse_payload s = .ok pl →
      Payload.try_from s = .ok pl) ∧
    (∀ (s : List Char) (pl : Payload), PollingTransport.parse_payload s = .ok pl →
      Payload.try_from s = .ok pl) :=
  ⟨ws_parse_ok, fun s pl h => ((polling_parse_ok_iff s pl).mp h).1⟩

/-- C10 witness: both parts at concrete one-packet message payloads. -/
theorem eio_C10_witness :
    Payload.try_from ['4', 'a'] = .ok ⟨[⟨.Message, some (.String ['a'])⟩]⟩ ∧
    Payload.try_from ['4', 'b'] = .ok ⟨[⟨.Message, some (.String ['b'])⟩]⟩ :=
  ⟨eio_C10.1 ['4', 'a'] ⟨[⟨.Message, some (.String ['a'])⟩]⟩ rfl,
    eio_C10.2 ['4', 'b'] ⟨[⟨.Message, some (.String ['b'])⟩]⟩ rfl⟩

end Eio
